import Mathlib

/-!
Shallow embedding of the telegram-search repository's core subsystem:
the batched embedding backfill loop (`embed`), the similarity query
(`findSimilarMessages`), and the conflict-free insert/upsert operations
(`createMessage`, `updateChat`, `updateFolder`).

The store is a list of rows; SQL reads become list filters and SQL writes
become list maps, in table order.  JavaScript truthiness tests on numbers
(`if (options.chatId)`) are embedded by `jsTruthyInt` / `jsTruthyNat`.
The schema file itself is not among the staged sources; following the
spec's data model, the unique key of the messages table is the
(id, chatId) pair, while chats and folders are keyed by id alone.
-/

/-- Message type tag, from the message schema's enum. -/
inductive MsgType where
  | text
  | photo
  | video
  | document
  | sticker
  | other
deriving DecidableEq, Repr

/-- A row of the messages table.  Modelled from the spec: the schema file is
not among the staged sources; the spec's data model names a numeric id scoped
to a chat id, a type tag, optional text content, an optional embedding
vector, optional reply/forward linkage, counters and a creation timestamp,
with the (id, chatId) pair unique.  The embedding vector's numeric entries
are embedded as rationals; timestamps as integers. -/
structure Message where
  id : Int
  chatId : Int
  type : MsgType
  content : Option String
  embedding : Option (List Rat)
  mediaInfo : Option String
  createdAt : Int
  fromId : Option Int
  replyToId : Option Int
  forwardFromChatId : Option Int
  forwardFromMessageId : Option Int
  views : Option Int
  forwards : Option Int
deriving DecidableEq, Repr

/-- JavaScript truthiness of an optional number: `undefined` and `0` are
falsy, every other number is truthy. -/
def jsTruthyInt : Option Int → Bool
  | none => false
  | some n => n != 0

/-- JavaScript truthiness of an optional natural number. -/
def jsTruthyNat : Option Nat → Bool
  | none => false
  | some n => n != 0

/-- Options of the `embed` command (`batchSize`, `chatId`), both optional. -/
structure EmbedOptions where
  batchSize : Option Nat
  chatId : Option Int
deriving DecidableEq, Repr

/-- The backfill's eligibility conditions: `isNull(messages.embedding)`,
plus `eq(messages.chatId, options.chatId)` when `options.chatId` is truthy
(`if (options.chatId) conditions.push(...)`). -/
def eligB (scope : Option Int) (r : Message) : Bool :=
  r.embedding.isNone && (if jsTruthyInt scope then r.chatId == scope.getD 0 else true)

/-- The up-front `select count(messages.id) ... where and(...conditions)`. -/
def countEligible (scope : Option Int) (rows : List Message) : Nat :=
  (rows.filter (eligB scope)).length

/-- One fetch of the loop: `select id, content ... where and(...conditions)
limit batchSize`, in table order. -/
def fetchBatch (scope : Option Int) (batchSize : Nat) (rows : List Message) :
    List Message :=
  (rows.filter (eligB scope)).take batchSize

/-- JavaScript's `String.prototype.trim`, modelled over the character list:
the string without its leading and trailing whitespace. -/
def jsTrim (s : String) : String :=
  String.mk (((s.data.dropWhile Char.isWhitespace).reverse.dropWhile
    Char.isWhitespace).reverse)

/-- The validity filter of a fetched row:
`msg.content && msg.content.trim().length > 0` — a null content is falsy,
an empty string is falsy, and a whitespace-only string trims to length 0. -/
def isValidContent : Option String → Bool
  | none => false
  | some s => (s != "") && (decide (0 < (jsTrim s).length))

/-- A batch's valid sub-batch:
`batch.filter(msg => msg.content && msg.content.trim().length > 0)`. -/
def validOf (batch : List Message) : List Message :=
  batch.filter (fun m => isValidContent m.content)

/-- The texts sent to the embedding provider:
`validBatch.map(msg => msg.content!.trim())`. -/
def textsOf (batch : List Message) : List String :=
  (validOf batch).map (fun m => jsTrim (m.content.getD ""))

/-- One per-row embedding write:
`db.update(messages).set({embedding}).where(eq(messages.id, msg.id))` —
it matches rows by message id alone. -/
def setEmbeddingById (id : Int) (v : List Rat) (rows : List Message) :
    List Message :=
  rows.map (fun r => if r.id == id then { r with embedding := some v } else r)

/-- The batch's write-back, one write per valid row paired with its vector
(`Promise.all(validBatch.map((msg, idx) => ...))`, sequentialised in batch
order; each write is independent and row updates commute on disjoint ids). -/
def applyWrites (ps : List (Message × List Rat)) (rows : List Message) :
    List Message :=
  ps.foldl (fun acc p => setEmbeddingById p.1.id p.2 acc) rows

/-- Mutable loop state: the messages table plus the `processed` and `failed`
counters.  `issued` is instrumentation counting the embedding writes issued
(one per valid row of a successfully embedded batch). -/
structure LoopState where
  rows : List Message
  processed : Nat
  failed : Nat
  issued : Nat
deriving DecidableEq, Repr

/-- What one loop iteration logs: the fetched batch's length and the counter
values after the iteration (`issued` cumulative). -/
structure IterLog where
  batchLen : Nat
  processed : Nat
  failed : Nat
  issued : Nat
deriving DecidableEq, Repr

/-- The body of one loop iteration, given the fetched (nonempty) batch:
filter the valid rows; when none are valid, count the whole batch as
processed and failed; otherwise call the provider on the trimmed texts and
either write every vector back (counting the skipped rest as failed) or, when
the provider call throws, catch and count the whole batch as processed and
failed with no write issued. -/
def embedIter (gen : List String → Except Unit (List (List Rat)))
    (st : LoopState) (batch : List Message) : LoopState :=
  let validBatch := validOf batch
  if validBatch.length = 0 then
    { st with processed := st.processed + batch.length,
              failed := st.failed + batch.length }
  else
    match gen (textsOf batch) with
    | Except.ok embs =>
        { rows := applyWrites (validBatch.zip embs) st.rows,
          processed := st.processed + batch.length,
          failed := st.failed + (batch.length - validBatch.length),
          issued := st.issued + validBatch.length }
    | Except.error _ =>
        { st with processed := st.processed + batch.length,
                  failed := st.failed + batch.length }

theorem embedIter_processed (gen : List String → Except Unit (List (List Rat)))
    (st : LoopState) (batch : List Message) :
    (embedIter gen st batch).processed = st.processed + batch.length := by
  unfold embedIter
  by_cases h : (validOf batch).length = 0
  · simp [h]
  · simp only [h, if_neg, if_false]
    cases gen (textsOf batch) <;> simp

/-- The `while (processed < count)` loop: fetch a batch, break when it is
empty, otherwise run one iteration and recurse, returning the per-iteration
logs together with the final state.  The structural `fuel` argument is the
standard embedding of a terminating while loop; since every iteration grows
`processed` by the fetched batch's (positive) length while the guard needs
`processed < count`, any fuel of at least `count - processed` is never
exhausted (`embedLoop_fuel_eq` below), and `embed` supplies `count`. -/
def embedLoop (gen : List String → Except Unit (List (List Rat)))
    (batchSize : Nat) (scope : Option Int) (count : Nat) :
    Nat → LoopState → List IterLog × LoopState
  | 0, st => ([], st)
  | fuel + 1, st =>
    if st.processed < count then
      let batch := fetchBatch scope batchSize st.rows
      if batch.length = 0 then ([], st)
      else
        let st' := embedIter gen st batch
        let rest := embedLoop gen batchSize scope count fuel st'
        ({ batchLen := batch.length, processed := st'.processed,
           failed := st'.failed, issued := st'.issued } :: rest.1, rest.2)
    else ([], st)

/-- The effective batch size, `options.batchSize || 100`: a missing or zero
batch size falls back to the default 100. -/
def effectiveBatchSize (options : EmbedOptions) : Nat :=
  if jsTruthyNat options.batchSize then options.batchSize.getD 0 else 100

theorem effectiveBatchSize_pos (options : EmbedOptions) :
    0 < effectiveBatchSize options := by
  unfold effectiveBatchSize
  cases h : options.batchSize with
  | none => simp [jsTruthyNat]
  | some b =>
      by_cases hb : b = 0
      · simp [jsTruthyNat, hb]
      · simp [jsTruthyNat, hb]
        omega

/-- The `embed` command run on a store: resolve the effective batch size
(`options.batchSize || 100`), count the eligible rows, return at once when
none, else run the loop from zeroed counters. -/
def embed (gen : List String → Except Unit (List (List Rat)))
    (options : EmbedOptions) (rows : List Message) : List IterLog × LoopState :=
  let batchSize := effectiveBatchSize options
  let scope := options.chatId
  let count := countEligible scope rows
  if count = 0 then ([], { rows := rows, processed := 0, failed := 0, issued := 0 })
  else embedLoop gen batchSize scope count count
    { rows := rows, processed := 0, failed := 0, issued := 0 }

/-- A provider that always succeeds, returning a constant vector per text. -/
def genOk : List String → Except Unit (List (List Rat)) :=
  fun ts => Except.ok (ts.map (fun _ => ([1] : List Rat)))

/-- A provider whose call always throws. -/
def genErr : List String → Except Unit (List (List Rat)) :=
  fun _ => Except.error ()

/-- A message row with the given id, chat and content and every optional
field absent; used to build concrete stores. -/
def mkMsg (id chatId : Int) (content : Option String) : Message :=
  { id := id, chatId := chatId, type := MsgType.text, content := content,
    embedding := none, mediaInfo := none, createdAt := 0, fromId := none,
    replyToId := none, forwardFromChatId := none, forwardFromMessageId := none,
    views := none, forwards := none }

example :
    (embed genOk { batchSize := some 2, chatId := none }
      [mkMsg 1 1 (some "a"), mkMsg 2 1 (some "b"), mkMsg 3 1 (some "c")]).2.processed = 3 := by
  decide

example :
    ((embed genOk { batchSize := some 2, chatId := none }
      [mkMsg 1 1 (some "a"), mkMsg 1 2 (some "b"), mkMsg 1 3 (some "x"),
       mkMsg 9 1 (some "")]).1.length = 3) := by
  decide

/-! ### Pointwise characterisation of the batch write-back -/

/-- The effect of one write on one row. -/
def writeStep (r : Message) (p : Message × List Rat) : Message :=
  if r.id == p.1.id then { r with embedding := some p.2 } else r

/-- The cumulative effect of a write list on one row. -/
def rowAfter (ps : List (Message × List Rat)) (r : Message) : Message :=
  ps.foldl writeStep r

theorem applyWrites_eq_map (ps : List (Message × List Rat)) (rows : List Message) :
    applyWrites ps rows = rows.map (rowAfter ps) := by
  induction ps generalizing rows with
  | nil =>
      show rows = rows.map (fun r => r)
      exact (List.map_id' rows).symm
  | cons p ps ih =>
      show applyWrites ps (setEmbeddingById p.1.id p.2 rows) = _
      rw [ih]
      show (rows.map (fun r => writeStep r p)).map (rowAfter ps) = _
      rw [List.map_map]
      rfl

theorem rowAfter_frame (ps : List (Message × List Rat)) (r : Message) :
    ∃ e, rowAfter ps r = { r with embedding := e } := by
  induction ps generalizing r with
  | nil => exact ⟨r.embedding, rfl⟩
  | cons p ps ih =>
      show ∃ e, rowAfter ps (writeStep r p) = _
      unfold writeStep
      by_cases h : r.id == p.1.id
      · simp only [h, if_pos]
        obtain ⟨e, he⟩ := ih { r with embedding := some p.2 }
        exact ⟨e, he⟩
      · simp only [h, if_neg, Bool.false_eq_true, not_false_iff, ite_false]
        exact ih r

theorem rowAfter_id (ps : List (Message × List Rat)) (r : Message) :
    (rowAfter ps r).id = r.id := by
  obtain ⟨e, he⟩ := rowAfter_frame ps r
  rw [he]

theorem rowAfter_not_mem (ps : List (Message × List Rat)) (r : Message)
    (h : r.id ∉ ps.map (fun p => p.1.id)) : rowAfter ps r = r := by
  induction ps generalizing r with
  | nil => rfl
  | cons p ps ih =>
      simp only [List.map_cons, List.mem_cons, not_or] at h
      show rowAfter ps (writeStep r p) = r
      rw [show writeStep r p = r by unfold writeStep; simp [h.1]]
      exact ih r h.2

theorem rowAfter_mem (ps : List (Message × List Rat)) (r : Message)
    (h : r.id ∈ ps.map (fun p => p.1.id)) :
    ∃ p ∈ ps, p.1.id = r.id ∧ rowAfter ps r = { r with embedding := some p.2 } := by
  induction ps generalizing r with
  | nil => simp at h
  | cons p ps ih =>
      by_cases ht : r.id ∈ ps.map (fun q => q.1.id)
      · have hid : (writeStep r p).id = r.id := by
          unfold writeStep; by_cases h1 : r.id == p.1.id <;> simp [h1]
        obtain ⟨q, hq, hqid, hrow⟩ := ih (writeStep r p) (by rw [hid]; exact ht)
        refine ⟨q, List.mem_cons_of_mem _ hq, by rw [hqid, hid], ?_⟩
        show rowAfter ps (writeStep r p) = _
        rw [hrow]
        unfold writeStep
        by_cases h1 : r.id == p.1.id <;> simp [h1]
      · simp only [List.map_cons, List.mem_cons, ht, or_false] at h
        have hs : writeStep r p = { r with embedding := some p.2 } := by
          unfold writeStep; simp [h]
        refine ⟨p, List.mem_cons_self _ _, h.symm, ?_⟩
        show rowAfter ps (writeStep r p) = _
        rw [hs]
        exact rowAfter_not_mem ps _ ht

theorem eligB_rowAfter (scope : Option Int) (ps : List (Message × List Rat))
    (r : Message) :
    eligB scope (rowAfter ps r) =
      (eligB scope r && !(decide (r.id ∈ ps.map (fun p => p.1.id)))) := by
  by_cases h : r.id ∈ ps.map (fun p => p.1.id)
  · obtain ⟨p, _, _, hrow⟩ := rowAfter_mem ps r h
    rw [hrow]
    simp [eligB, h]
  · rw [rowAfter_not_mem ps r h]
    simp [h]

theorem countP_and_split (p q : Message → Bool) (l : List Message) :
    List.countP p l =
      List.countP (fun a => p a && q a) l + List.countP (fun a => p a && !q a) l := by
  induction l with
  | nil => simp
  | cons a l ih =>
      by_cases hp : p a
      · by_cases hq : q a <;>
          simp [List.countP_cons, hp, hq, ih] <;> omega
      · simp [List.countP_cons, hp, ih]

theorem countEligible_applyWrites (scope : Option Int)
    (ps : List (Message × List Rat)) (rows : List Message) :
    countEligible scope (applyWrites ps rows) =
      List.countP
        (fun r => eligB scope r && !(decide (r.id ∈ ps.map (fun p => p.1.id))))
        rows := by
  rw [countEligible, ← List.countP_eq_length_filter, applyWrites_eq_map,
    List.countP_map]
  exact List.countP_congr (fun r _ => by
    simp only [Function.comp_apply, eligB_rowAfter scope ps r])

/-! ### Fetch and iteration lemmas -/

theorem fetchBatch_sublist (scope : Option Int) (B : Nat) (rows : List Message) :
    List.Sublist (fetchBatch scope B rows) rows :=
  (List.take_sublist _ _).trans (List.filter_sublist _)

theorem mem_fetchBatch_elig {scope : Option Int} {B : Nat} {rows : List Message}
    {m : Message} (h : m ∈ fetchBatch scope B rows) : eligB scope m = true :=
  List.of_mem_filter (List.mem_of_mem_take h)

theorem fetchBatch_length (scope : Option Int) (B : Nat) (rows : List Message) :
    (fetchBatch scope B rows).length = min B (countEligible scope rows) := by
  simp [fetchBatch, countEligible, List.length_take]

theorem validOf_length_le (batch : List Message) :
    (validOf batch).length ≤ batch.length :=
  List.length_filter_le _ _

theorem embedIter_ids (gen : List String → Except Unit (List (List Rat)))
    (st : LoopState) (batch : List Message) :
    ((embedIter gen st batch).rows).map (fun r => r.id) =
      st.rows.map (fun r => r.id) := by
  unfold embedIter
  by_cases h : (validOf batch).length = 0
  · simp [h]
  · simp only [h, if_neg, if_false]
    cases hgen : gen (textsOf batch) with
    | error e => rfl
    | ok embs =>
        show (applyWrites _ st.rows).map _ = _
        rw [applyWrites_eq_map, List.map_map]
        exact List.map_congr_left (fun r _ => rowAfter_id _ r)

theorem embedIter_failed_issued (gen : List String → Except Unit (List (List Rat)))
    (st : LoopState) (batch : List Message) :
    (embedIter gen st batch).failed + (embedIter gen st batch).issued =
      st.failed + st.issued + batch.length := by
  have hle := validOf_length_le batch
  unfold embedIter
  by_cases h : (validOf batch).length = 0
  · simp [h]; omega
  · simp only [h, if_neg, if_false]
    cases gen (textsOf batch) with
    | error e => simp; omega
    | ok embs => simp; omega

theorem countP_mem_le_ids (p : Message → Bool) (ids : List Int)
    (rows : List Message) (hnd : (rows.map (fun r => r.id)).Nodup) :
    List.countP (fun r => p r && decide (r.id ∈ ids)) rows ≤ ids.length := by
  rw [List.countP_eq_length_filter]
  have h1 : ((rows.filter (fun r => p r && decide (r.id ∈ ids))).map
      (fun r => r.id)).Nodup :=
    hnd.sublist (List.Sublist.map _ (List.filter_sublist _))
  have h2 : (rows.filter (fun r => p r && decide (r.id ∈ ids))).map
      (fun r => r.id) ⊆ ids := by
    intro x hx
    obtain ⟨r, hr, hrx⟩ := List.mem_map.1 hx
    have := List.of_mem_filter hr
    simp only [Bool.and_eq_true, decide_eq_true_eq] at this
    exact hrx ▸ this.2
  have h3 := (h1.subperm h2).length_le
  rw [List.length_map] at h3
  exact h3

theorem embedIter_countEligible_ge (gen : List String → Except Unit (List (List Rat)))
    (scope : Option Int) (st : LoopState) (batch : List Message)
    (hnd : (st.rows.map (fun r => r.id)).Nodup) :
    countEligible scope st.rows ≤
      countEligible scope (embedIter gen st batch).rows + batch.length := by
  unfold embedIter
  by_cases h : (validOf batch).length = 0
  · simp [h]
  · simp only [h, if_neg, if_false]
    cases gen (textsOf batch) with
    | error e => simp
    | ok embs =>
        show countEligible scope st.rows ≤
          countEligible scope (applyWrites ((validOf batch).zip embs) st.rows) + _
        rw [countEligible_applyWrites]
        have hsplit := countP_and_split (eligB scope)
          (fun r => decide (r.id ∈ ((validOf batch).zip embs).map (fun p => p.1.id)))
          st.rows
        have hA := countP_mem_le_ids (eligB scope)
          (((validOf batch).zip embs).map (fun p => p.1.id)) st.rows hnd
        have hidlen : (((validOf batch).zip embs).map
            (fun p => p.1.id)).length ≤ batch.length := by
          rw [List.length_map, List.length_zip]
          exact le_trans (min_le_left _ _) (validOf_length_le batch)
        have : countEligible scope st.rows =
            List.countP (eligB scope) st.rows := by
          rw [countEligible, List.countP_eq_length_filter]
        omega

theorem embedIter_countEligible_le (gen : List String → Except Unit (List (List Rat)))
    (scope : Option Int) (st : LoopState) (batch : List Message)
    (embs : List (List Rat))
    (hne : batch.length ≠ 0)
    (helig : ∀ m ∈ batch, eligB scope m = true)
    (hsub : List.Sublist batch st.rows)
    (hvalid : validOf batch = batch)
    (hgen : gen (textsOf batch) = Except.ok embs)
    (hlen : batch.length ≤ embs.length) :
    countEligible scope (embedIter gen st batch).rows + batch.length ≤
      countEligible scope st.rows := by
  have hv0 : (validOf batch).length = batch.length := by rw [hvalid]
  unfold embedIter
  simp only [hv0, hne, if_neg, if_false, hgen]
  show countEligible scope
      (applyWrites ((validOf batch).zip embs) st.rows) + batch.length ≤ _
  rw [countEligible_applyWrites, hvalid]
  have hids : (batch.zip embs).map (fun p => p.1.id) = batch.map (fun r => r.id) := by
    have h1 : (batch.zip embs).map (fun p => p.1.id) =
        ((batch.zip embs).map Prod.fst).map (fun r => r.id) := by
      rw [List.map_map]; rfl
    rw [h1, List.map_fst_zip batch embs hlen]
  have hA : batch.length ≤
      List.countP (fun r => eligB scope r &&
        decide (r.id ∈ (batch.zip embs).map (fun p => p.1.id))) st.rows := by
    have hbatch : List.countP (fun r => eligB scope r &&
        decide (r.id ∈ (batch.zip embs).map (fun p => p.1.id))) batch =
        batch.length := by
      rw [List.countP_eq_length]
      intro m hm
      simp only [Bool.and_eq_true, decide_eq_true_eq]
      exact ⟨helig m hm, by rw [hids]; exact List.mem_map_of_mem _ hm⟩
    rw [← hbatch]
    exact List.Sublist.countP_le _ hsub
  have hsplit := countP_and_split (eligB scope)
    (fun r => decide (r.id ∈ (batch.zip embs).map (fun p => p.1.id)))
    st.rows
  have he : countEligible scope st.rows = List.countP (eligB scope) st.rows := by
    rw [countEligible, List.countP_eq_length_filter]
  omega

theorem embedIter_valid_preserved (gen : List String → Except Unit (List (List Rat)))
    (scope : Option Int) (st : LoopState) (batch : List Message)
    (h : ∀ r ∈ st.rows, eligB scope r = true → isValidContent r.content = true) :
    ∀ r ∈ (embedIter gen st batch).rows,
      eligB scope r = true → isValidContent r.content = true := by
  unfold embedIter
  by_cases hv : (validOf batch).length = 0
  · simp only [hv, if_pos]
    exact h
  · simp only [hv, if_neg, if_false]
    cases gen (textsOf batch) with
    | error e => exact h
    | ok embs =>
        intro r hr helig
        simp only at hr
        rw [applyWrites_eq_map] at hr
        obtain ⟨r0, hr0, hrow⟩ := List.mem_map.1 hr
        rw [← hrow] at helig
        rw [eligB_rowAfter] at helig
        simp only [Bool.and_eq_true, Bool.not_eq_eq_eq_not, Bool.not_true,
          decide_eq_false_iff_not] at helig
        obtain ⟨e0, he0⟩ := rowAfter_frame ((validOf batch).zip embs) r0
        have hcontent : r.content = r0.content := by rw [← hrow, he0]
        rw [hcontent]
        exact h r0 hr0 helig.1

/-! ### Loop-level invariants -/

/-- Chained counter invariant along an iteration log: starting from counters
`(p, f, i)`, every logged iteration advances `processed` by exactly the
fetched batch's length, and keeps `processed = failed + issued`. -/
def CountersOk : Nat → Nat → Nat → List IterLog → Prop
  | _, _, _, [] => True
  | p, _, _, l :: ls =>
      l.processed = p + l.batchLen ∧ l.processed = l.failed + l.issued ∧
      CountersOk l.processed l.failed l.issued ls

theorem embedLoop_countersOk (gen : List String → Except Unit (List (List Rat)))
    (B : Nat) (scope : Option Int) (count : Nat) :
    ∀ fuel st, st.processed = st.failed + st.issued →
      CountersOk st.processed st.failed st.issued
        (embedLoop gen B scope count fuel st).1 := by
  intro fuel
  induction fuel with
  | zero => intro st _; exact trivial
  | succ fuel ih =>
      intro st hst
      show CountersOk _ _ _ (embedLoop gen B scope count (fuel + 1) st).1
      rw [embedLoop]
      by_cases hg : st.processed < count
      · simp only [hg, if_pos]
        by_cases hb : (fetchBatch scope B st.rows).length = 0
        · simp only [hb, if_pos]
          exact trivial
        · simp only [hb, if_neg, if_false]
          refine ⟨?_, ?_, ?_⟩
          · exact embedIter_processed gen st _
          · dsimp only
            have h1 := embedIter_processed gen st (fetchBatch scope B st.rows)
            have h2 := embedIter_failed_issued gen st (fetchBatch scope B st.rows)
            omega
          · exact ih _ (by
              have h1 := embedIter_processed gen st (fetchBatch scope B st.rows)
              have h2 := embedIter_failed_issued gen st (fetchBatch scope B st.rows)
              omega)
      · simp only [hg, if_neg, if_false]
        exact trivial

theorem embedLoop_fuel_eq (gen : List String → Except Unit (List (List Rat)))
    (B : Nat) (scope : Option Int) (count : Nat) :
    ∀ fuel fuel2 st, count - st.processed ≤ fuel → count - st.processed ≤ fuel2 →
      embedLoop gen B scope count fuel st = embedLoop gen B scope count fuel2 st := by
  intro fuel
  induction fuel with
  | zero =>
      intro fuel2 st h1 _
      have hg : ¬ st.processed < count := by omega
      cases fuel2 with
      | zero => rfl
      | succ fuel2 => rw [embedLoop, embedLoop]; simp [hg]
  | succ fuel ih =>
      intro fuel2 st h1 h2
      cases fuel2 with
      | zero =>
          have hg : ¬ st.processed < count := by omega
          rw [embedLoop, embedLoop]; simp [hg]
      | succ fuel2 =>
          rw [embedLoop, embedLoop]
          by_cases hg : st.processed < count
          · simp only [hg, if_pos]
            by_cases hb : (fetchBatch scope B st.rows).length = 0
            · simp only [hb, if_pos]
            · simp only [hb, if_neg, if_false]
              have hp := embedIter_processed gen st (fetchBatch scope B st.rows)
              rw [ih fuel2 (embedIter gen st (fetchBatch scope B st.rows))
                (by omega) (by omega)]
          · simp only [hg, if_neg, if_false]

theorem embedLoop_length_bound (gen : List String → Except Unit (List (List Rat)))
    (B : Nat) (scope : Option Int) (count : Nat) :
    ∀ k fuel st, (st.rows.map (fun r => r.id)).Nodup →
      count - st.processed ≤ k * B →
      count - st.processed ≤ countEligible scope st.rows →
      (embedLoop gen B scope count fuel st).1.length ≤ k := by
  intro k
  induction k with
  | zero =>
      intro fuel st _ hk _
      cases fuel with
      | zero => simp [embedLoop]
      | succ fuel =>
          have hg : ¬ st.processed < count := by omega
          rw [embedLoop]; simp [hg]
  | succ k ih =>
      intro fuel st hnd hk he
      cases fuel with
      | zero => simp [embedLoop]
      | succ fuel =>
          rw [embedLoop]
          by_cases hg : st.processed < count
          · simp only [hg, if_pos]
            by_cases hb : (fetchBatch scope B st.rows).length = 0
            · simp [hb]
            · simp only [hb, if_neg, if_false]
              have hlen := fetchBatch_length scope B st.rows
              have hp := embedIter_processed gen st (fetchBatch scope B st.rows)
              have hids := embedIter_ids gen st (fetchBatch scope B st.rows)
              have hge := embedIter_countEligible_ge gen scope st
                (fetchBatch scope B st.rows) hnd
              have hmul : (k + 1) * B = k * B + B := Nat.succ_mul k B
              have hrest := ih fuel (embedIter gen st (fetchBatch scope B st.rows))
                (by rw [hids]; exact hnd) (by omega) (by omega)
              simp only [List.length_cons]
              omega
          · simp [hg]

theorem embedLoop_eligZero (gen : List String → Except Unit (List (List Rat)))
    (B : Nat) (scope : Option Int) (count : Nat)
    (hB : 0 < B)
    (hgen : ∀ ts, ∃ vs, gen ts = Except.ok vs ∧ vs.length = ts.length) :
    ∀ fuel st, count - st.processed ≤ fuel →
      countEligible scope st.rows ≤ count - st.processed →
      (∀ r ∈ st.rows, eligB scope r = true → isValidContent r.content = true) →
      countEligible scope ((embedLoop gen B scope count fuel st).2).rows = 0 := by
  intro fuel
  induction fuel with
  | zero =>
      intro st hf he _
      show countEligible scope st.rows = 0
      omega
  | succ fuel ih =>
      intro st hf he hv
      rw [embedLoop]
      by_cases hg : st.processed < count
      · simp only [hg, if_pos]
        by_cases hb : (fetchBatch scope B st.rows).length = 0
        · simp only [hb, if_pos]
          have hlen := fetchBatch_length scope B st.rows
          show countEligible scope st.rows = 0
          omega
        · simp only [hb, if_neg, if_false]
          have hvalidOf : validOf (fetchBatch scope B st.rows) =
              fetchBatch scope B st.rows :=
            List.filter_eq_self.2 (fun m hm =>
              hv m ((fetchBatch_sublist scope B st.rows).subset hm)
                (mem_fetchBatch_elig hm))
          obtain ⟨embs, hgeq, hglen⟩ := hgen (textsOf (fetchBatch scope B st.rows))
          have htlen : (textsOf (fetchBatch scope B st.rows)).length =
              (fetchBatch scope B st.rows).length := by
            rw [textsOf, List.length_map, hvalidOf]
          have hle := embedIter_countEligible_le gen scope st
            (fetchBatch scope B st.rows) embs hb
            (fun m hm => mem_fetchBatch_elig hm) (fetchBatch_sublist _ _ _)
            hvalidOf hgeq (by omega)
          have hp := embedIter_processed gen st (fetchBatch scope B st.rows)
          show countEligible scope ((embedLoop gen B scope count fuel
            (embedIter gen st (fetchBatch scope B st.rows))).2).rows = 0
          exact ih (embedIter gen st (fetchBatch scope B st.rows))
            (by omega) (by omega)
            (embedIter_valid_preserved gen scope st (fetchBatch scope B st.rows) hv)
      · simp only [hg, if_neg, if_false]
        show countEligible scope st.rows = 0
        omega

/-! ### Similarity search -/

/-- Options of `findSimilarMessages` (`SearchOptions` in the source): all
filters optional, pagination via `limit`/`offset`. -/
structure SearchOptions where
  chatId : Option Int
  type : Option MsgType
  startTime : Option Int
  endTime : Option Int
  limit : Option Nat
  offset : Option Nat
deriving DecidableEq, Repr

/-- The where-conditions of `findSimilarMessages`: each filter is pushed only
when its value is truthy (`if (chatId) conditions.push(...)`; a type tag or a
date object is always truthy when present), plus the fixed
`embedding IS NOT NULL` condition. -/
def matchesSearch (o : SearchOptions) (m : Message) : Bool :=
  (if jsTruthyInt o.chatId then m.chatId == o.chatId.getD 0 else true) &&
  (match o.type with | some t => m.type == t | none => true) &&
  (match o.startTime with | some t => decide (t < m.createdAt) | none => true) &&
  (match o.endTime with | some t => decide (m.createdAt < t) | none => true) &&
  m.embedding.isSome

/-- The selected columns of `findSimilarMessages`, with the computed
`similarity` column. -/
structure SearchResult where
  id : Int
  chatId : Int
  type : MsgType
  content : Option String
  createdAt : Int
  fromId : Option Int
  similarity : Rat
deriving DecidableEq, Repr

/-- One selected row: `similarity` is `1 - (embedding <=> query)`, where the
cosine-distance operator `<=>` of the database's vector extension is the
abstract parameter `dist`. -/
def toSearchResult (dist : List Rat → List Rat → Rat) (emb : List Rat)
    (m : Message) : SearchResult :=
  { id := m.id, chatId := m.chatId, type := m.type, content := m.content,
    createdAt := m.createdAt, fromId := m.fromId,
    similarity := 1 - dist (m.embedding.getD []) emb }

/-- The `findSimilarMessages` query: filter by the pushed conditions, order by
`similarity DESC`, then apply `offset` and `limit` (destructuring defaults
`limit = 10`, `offset = 0`). -/
def findSimilarMessages (dist : List Rat → List Rat → Rat) (emb : List Rat)
    (o : SearchOptions) (rows : List Message) : List SearchResult :=
  let lim := o.limit.getD 10
  let off := o.offset.getD 0
  let selected := (rows.filter (matchesSearch o)).map (toSearchResult dist emb)
  ((selected.mergeSort (fun a b => decide (b.similarity ≤ a.similarity))).drop
    off).take lim

/-! ### Inserts and upserts -/

/-- Insert input of `createMessage` (`NewMessage`): optional fields may be
absent. -/
structure NewMessage where
  id : Int
  chatId : Int
  type : Option MsgType
  content : Option String
  mediaInfo : Option String
  createdAt : Int
  fromId : Option Int
  replyToId : Option Int
  forwardFromChatId : Option Int
  forwardFromMessageId : Option Int
  views : Option Int
  forwards : Option Int
deriving DecidableEq, Repr

/-- JavaScript `x || null` on an optional string: the empty string is falsy. -/
def jsOrNullStr : Option String → Option String
  | none => none
  | some s => if s = "" then none else some s

/-- JavaScript `x || null` on an optional number: zero is falsy. -/
def jsOrNullInt : Option Int → Option Int
  | none => none
  | some n => if n = 0 then none else some n

/-- The row `createMessage` actually inserts:
`type: msg.type || 'text'`, `content: msg.content || null`,
`embedding: null`, `mediaInfo: msg.mediaInfo || null` (an object is always
truthy), and `|| null` on the numeric optionals. -/
def normalizeInsert (msg : NewMessage) : Message :=
  { id := msg.id, chatId := msg.chatId,
    type := msg.type.getD MsgType.text,
    content := jsOrNullStr msg.content,
    embedding := none,
    mediaInfo := msg.mediaInfo,
    createdAt := msg.createdAt,
    fromId := jsOrNullInt msg.fromId,
    replyToId := jsOrNullInt msg.replyToId,
    forwardFromChatId := jsOrNullInt msg.forwardFromChatId,
    forwardFromMessageId := jsOrNullInt msg.forwardFromMessageId,
    views := jsOrNullInt msg.views,
    forwards := jsOrNullInt msg.forwards }

/-- Unique-key conflict test of the messages table.  Modelled from the spec:
the schema file is not among the staged sources, and the spec's data model
makes the (id, chatId) pair the unique key. -/
def hasKeyConflict (store : List Message) (row : Message) : Bool :=
  store.any (fun r => r.id == row.id && r.chatId == row.chatId)

/-- The `createMessage` insert with `onConflictDoNothing().returning()`:
rows whose unique key already exists are skipped; the returned list holds
exactly the rows actually inserted.  Returns (returned rows, new store). -/
def createMessage (data : List NewMessage) (store : List Message) :
    List Message × List Message :=
  let final := data.foldl (fun acc msg =>
    let row := normalizeInsert msg
    if hasKeyConflict acc.1 row then acc else (acc.1 ++ [row], acc.2 ++ [row]))
    (store, ([] : List Message))
  (final.2, final.1)

/-- A row of the chats table, from the spec's data model: id, display name,
type, last message preview/time, sync timestamp, message count, optional
folder association. -/
structure Chat where
  id : Int
  name : String
  type : String
  lastMessage : Option String
  lastMessageDate : Option Int
  lastSyncTime : Option Int
  messageCount : Option Int
  folderId : Option Int
deriving DecidableEq, Repr

/-- The `set` clause of `updateChat`'s `onConflictDoUpdate`: overwrite
exactly name, type, lastMessage, lastMessageDate, lastSyncTime,
messageCount and folderId, keeping the row's id. -/
def chatOverwrite (r data : Chat) : Chat :=
  { r with
    name := data.name
    type := data.type
    lastMessage := data.lastMessage
    lastMessageDate := data.lastMessageDate
    lastSyncTime := data.lastSyncTime
    messageCount := data.messageCount
    folderId := data.folderId }

/-- The `updateChat` upsert keyed by `chats.id`: insert the row when the id
is absent, else apply the `set` clause to the conflicting row.  Returns
(returned rows, new store). -/
def updateChat (data : Chat) (store : List Chat) : List Chat × List Chat :=
  if store.any (fun r => r.id == data.id) then
    let store2 := store.map
      (fun r => if r.id == data.id then chatOverwrite r data else r)
    (store2.filter (fun r => r.id == data.id), store2)
  else ([data], store ++ [data])

/-- A row of the folders table, from the spec's data model: id, title,
emoji, sync timestamp. -/
structure Folder where
  id : Int
  title : String
  emoji : Option String
  lastSyncTime : Option Int
deriving DecidableEq, Repr

/-- The `set` clause of `updateFolder`'s `onConflictDoUpdate`: overwrite
exactly title, emoji and lastSyncTime, keeping the row's id. -/
def folderOverwrite (r data : Folder) : Folder :=
  { r with
    title := data.title
    emoji := data.emoji
    lastSyncTime := data.lastSyncTime }

/-- The `updateFolder` upsert keyed by `folders.id`; like `updateChat`. -/
def updateFolder (data : Folder) (store : List Folder) :
    List Folder × List Folder :=
  if store.any (fun r => r.id == data.id) then
    let store2 := store.map
      (fun r => if r.id == data.id then folderOverwrite r data else r)
    (store2.filter (fun r => r.id == data.id), store2)
  else ([data], store ++ [data])

/-! ### Blank-content characterisation -/

/-- Spec-side characterisation of a blank row: content absent, empty, or
whitespace-only (trimming to the empty string). -/
def isBlankContent : Option String → Bool
  | none => true
  | some s => jsTrim s == ""

theorem isValidContent_eq_not_blank (c : Option String) :
    isValidContent c = !(isBlankContent c) := by
  cases c with
  | none => rfl
  | some s =>
      show ((s != "") && decide (0 < (jsTrim s).length)) = !(jsTrim s == "")
      by_cases hs : s = ""
      · subst hs; decide
      · have h1 : (s != "") = true := by simp [hs]
        rw [h1, Bool.true_and]
        generalize jsTrim s = t
        cases t with
        | mk data =>
            cases data with
            | nil => decide
            | cons c cs => simp [String.length, String.ext_iff]

theorem embed_of_count_zero (gen : List String → Except Unit (List (List Rat)))
    (options : EmbedOptions) (rows : List Message)
    (h : countEligible options.chatId rows = 0) :
    embed gen options rows =
      ([], { rows := rows, processed := 0, failed := 0, issued := 0 }) := by
  unfold embed
  simp [h]

/-! ### Claim C1 -/

/-- C1: throughout every run of the backfill loop, the counters satisfy
`processed = failed + succeeded`, where `succeeded` (the log's cumulative
`issued`) counts the rows whose embedding write was issued, and every
iteration advances `processed` by exactly the length of the batch fetched in
that iteration — whether the iteration succeeds, skips empty rows, or
catches a provider error.  `CountersOk` chains both equalities from the
zeroed counters along the whole iteration log of the run. -/
theorem claim1_processed_invariant (gen : List String → Except Unit (List (List Rat)))
    (options : EmbedOptions) (rows : List Message) :
    CountersOk 0 0 0 (embed gen options rows).1 := by
  unfold embed
  by_cases h : countEligible options.chatId rows = 0
  · simp only [h, if_pos]
    exact trivial
  · simp only [h, if_neg, if_false]
    exact embedLoop_countersOk gen (effectiveBatchSize options) options.chatId
      (countEligible options.chatId rows) (countEligible options.chatId rows)
      { rows := rows, processed := 0, failed := 0, issued := 0 } rfl

/-! ### Claim C2 -/

/-- A store whose single eligible row has empty content. -/
def rowsBlankStore : List Message := [mkMsg 1 1 (some "")]

/-- C2 counterexample: with one eligible row of empty content and a provider
that never fails, the first run completes (processed = total = 1), yet the
eligible count the second run would compute is still 1, not 0: the blank
row's embedding is never set. -/
theorem claim2_counterexample :
    countEligible none rowsBlankStore = 1 ∧
    (embed genOk { batchSize := some 100, chatId := none } rowsBlankStore).2.processed = 1 ∧
    countEligible none
      ((embed genOk { batchSize := some 100, chatId := none }
        rowsBlankStore).2).rows = 1 := by
  decide

/-- After one complete run, no eligible rows remain, so a second run with the
same options computes count 0, performs no iteration and leaves the store
unchanged. -/
def EligibleZeroAfterRun (gen : List String → Except Unit (List (List Rat)))
    (options : EmbedOptions) (rows : List Message) : Prop :=
  countEligible options.chatId ((embed gen options rows).2).rows = 0 ∧
  (embed gen options ((embed gen options rows).2).rows).1 = [] ∧
  ((embed gen options ((embed gen options rows).2).rows).2).rows =
    ((embed gen options rows).2).rows

/-- C2 (amended): running the backfill to completion with a provider that
never errors sets an embedding on every eligible row whose content is
nonblank; provided every eligible row's content is nonblank, the second run
with the same options finds zero eligible rows, performs no iteration and
changes nothing.  (Without the nonblank proviso the claim fails:
`claim2_counterexample` — blank rows are only skipped and stay eligible
forever.) -/
theorem claim2_idempotent (gen : List String → Except Unit (List (List Rat)))
    (options : EmbedOptions) (rows : List Message)
    (hgen : ∀ ts, ∃ vs, gen ts = Except.ok vs ∧ vs.length = ts.length)
    (hvalid : ∀ r ∈ rows, eligB options.chatId r = true →
      isValidContent r.content = true) :
    EligibleZeroAfterRun gen options rows := by
  have hzero : countEligible options.chatId ((embed gen options rows).2).rows = 0 := by
    unfold embed
    by_cases h : countEligible options.chatId rows = 0
    · simp only [h, if_pos]
    · simp only [h, if_neg, if_false]
      exact embedLoop_eligZero gen (effectiveBatchSize options) options.chatId
        (countEligible options.chatId rows) (effectiveBatchSize_pos options) hgen
        (countEligible options.chatId rows)
        { rows := rows, processed := 0, failed := 0, issued := 0 }
        (by simp) (by simp) hvalid
  refine ⟨hzero, ?_, ?_⟩
  · rw [embed_of_count_zero gen options _ hzero]
  · rw [embed_of_count_zero gen options _ hzero]

/-- Witness for C2 at a concrete input: a two-row store with nonblank
contents and the constant provider. -/
theorem claim2_idempotent_witness :
    EligibleZeroAfterRun genOk { batchSize := some 2, chatId := none }
      [mkMsg 1 1 (some "a"), mkMsg 2 1 (some "b")] :=
  claim2_idempotent genOk { batchSize := some 2, chatId := none }
    [mkMsg 1 1 (some "a"), mkMsg 2 1 (some "b")]
    (fun ts => ⟨ts.map (fun _ => ([1] : List Rat)), rfl, by simp⟩)
    (by decide)

/-! ### Claim C3 -/

/-- A store where three rows share message id 1 across different chats and a
fourth row has empty content. -/
def rowsDupIds : List Message :=
  [mkMsg 1 1 (some "a"), mkMsg 1 2 (some "b"), mkMsg 1 3 (some "x"),
   mkMsg 9 1 (some "")]

/-- C3 counterexample: total = 4 eligible rows and batch size 2, so the
claimed bound allows at most ceil(4/2) = 2 fetch iterations, yet the run
performs 3: the per-id writes of the first batch also clear the third row
(same message id, another chat), and the remaining blank row is then fetched
alone twice. -/
theorem claim3_counterexample :
    countEligible none rowsDupIds = 4 ∧
    (4 + 2 - 1) / 2 = 2 ∧
    (embed genOk { batchSize := some 2, chatId := none } rowsDupIds).1.length = 3 := by
  decide

/-- The 250-row store of the spec's 250/100 example: distinct ids, nonblank
contents, no chat scope. -/
def rows250 : List Message :=
  (List.range 250).map (fun i => mkMsg (Int.ofNat i) 0 (some "a"))

set_option maxRecDepth 200000 in
set_option maxHeartbeats 4000000 in
theorem embed250_trace :
    ((embed genOk { batchSize := some 100, chatId := none } rows250).1.map
      (fun l => l.batchLen)) = [100, 100, 50] := by
  decide

/-- The loop performs at most ceil(total / batchSize) fetch iterations. -/
def CeilIterationBound (gen : List String → Except Unit (List (List Rat)))
    (options : EmbedOptions) (rows : List Message) : Prop :=
  (embed gen options rows).1.length ≤
    (countEligible options.chatId rows + effectiveBatchSize options - 1) /
      effectiveBatchSize options

/-- C3 (amended): every iteration advances `processed` by the full fetched
batch length (chained in `claim1_processed_invariant`), and, provided no two
rows of the store share a message id, the loop terminates after at most
ceil(total/batchSize) fetch iterations; with total = 250, batch size 100,
nonblank contents and no provider errors, it performs exactly 3 fetch
iterations returning 100, 100 and 50 rows.  (Without the distinct-id proviso
the ceiling bound fails: `claim3_counterexample`.) -/
theorem claim3_iteration_bound (gen : List String → Except Unit (List (List Rat)))
    (options : EmbedOptions) (rows : List Message)
    (hnd : (rows.map (fun r => r.id)).Nodup) :
    CeilIterationBound gen options rows ∧
    ((embed genOk { batchSize := some 100, chatId := none } rows250).1.map
      (fun l => l.batchLen)) = [100, 100, 50] := by
  refine ⟨?_, embed250_trace⟩
  show (embed gen options rows).1.length ≤ _
  unfold embed
  by_cases h : countEligible options.chatId rows = 0
  · simp [h]
  · simp only [h, if_neg, if_false]
    have hBpos := effectiveBatchSize_pos options
    have hdiv := Nat.div_add_mod
      (countEligible options.chatId rows + effectiveBatchSize options - 1)
      (effectiveBatchSize options)
    have hmod : (countEligible options.chatId rows + effectiveBatchSize options - 1) %
        effectiveBatchSize options < effectiveBatchSize options :=
      Nat.mod_lt _ hBpos
    have hcomm : effectiveBatchSize options *
        ((countEligible options.chatId rows + effectiveBatchSize options - 1) /
          effectiveBatchSize options) =
        ((countEligible options.chatId rows + effectiveBatchSize options - 1) /
          effectiveBatchSize options) * effectiveBatchSize options :=
      Nat.mul_comm _ _
    exact embedLoop_length_bound gen (effectiveBatchSize options) options.chatId
      (countEligible options.chatId rows)
      ((countEligible options.chatId rows + effectiveBatchSize options - 1) /
        effectiveBatchSize options)
      (countEligible options.chatId rows)
      { rows := rows, processed := 0, failed := 0, issued := 0 }
      hnd (by omega) (by simp)

/-- Witness for C3 at a concrete input: a one-row store with a distinct id
(and the fixed 250/100 trace). -/
theorem claim3_iteration_bound_witness :
    CeilIterationBound genOk { batchSize := some 2, chatId := none }
      [mkMsg 1 1 (some "a")] ∧
    ((embed genOk { batchSize := some 100, chatId := none } rows250).1.map
      (fun l => l.batchLen)) = [100, 100, 50] :=
  claim3_iteration_bound genOk { batchSize := some 2, chatId := none }
    [mkMsg 1 1 (some "a")] (by decide)

/-! ### Claim C4 -/

/-- When the provider call for the fetched batch throws, the iteration
leaves the store untouched (no write of any row of the batch), advances
`processed` and `failed` by the full batch length with `issued` unchanged,
and the loop goes on to the next iteration from that state. -/
def ProviderErrorBatchStep (gen : List String → Except Unit (List (List Rat)))
    (B : Nat) (scope : Option Int) (count fuel : Nat) (st : LoopState) : Prop :=
  embedIter gen st (fetchBatch scope B st.rows) =
    { rows := st.rows,
      processed := st.processed + (fetchBatch scope B st.rows).length,
      failed := st.failed + (fetchBatch scope B st.rows).length,
      issued := st.issued } ∧
  embedLoop gen B scope count (fuel + 1) st =
    ({ batchLen := (fetchBatch scope B st.rows).length,
       processed := st.processed + (fetchBatch scope B st.rows).length,
       failed := st.failed + (fetchBatch scope B st.rows).length,
       issued := st.issued } ::
        (embedLoop gen B scope count fuel
          { rows := st.rows,
            processed := st.processed + (fetchBatch scope B st.rows).length,
            failed := st.failed + (fetchBatch scope B st.rows).length,
            issued := st.issued }).1,
      (embedLoop gen B scope count fuel
        { rows := st.rows,
          processed := st.processed + (fetchBatch scope B st.rows).length,
          failed := st.failed + (fetchBatch scope B st.rows).length,
          issued := st.issued }).2)

/-- C4: for every batch whose provider call throws, the backfill catches the
error, advances both `processed` and `failed` by the full batch length,
issues no embedding write for any row of the batch (the store is unchanged —
no writes at all, so in particular no half-written batch), and continues with
the next loop iteration. -/
theorem claim4_provider_error (gen : List String → Except Unit (List (List Rat)))
    (B : Nat) (scope : Option Int) (count fuel : Nat) (st : LoopState)
    (hg : st.processed < count)
    (hb : (fetchBatch scope B st.rows).length ≠ 0)
    (hv : (validOf (fetchBatch scope B st.rows)).length ≠ 0)
    (herr : gen (textsOf (fetchBatch scope B st.rows)) = Except.error ()) :
    ProviderErrorBatchStep gen B scope count fuel st := by
  have hiter : embedIter gen st (fetchBatch scope B st.rows) =
      { rows := st.rows,
        processed := st.processed + (fetchBatch scope B st.rows).length,
        failed := st.failed + (fetchBatch scope B st.rows).length,
        issued := st.issued } := by
    unfold embedIter
    simp only [hv, if_neg, if_false, herr]
  refine ⟨hiter, ?_⟩
  rw [embedLoop]
  simp only [hg, if_pos, hb, if_neg, if_false, hiter]

/-- Witness for C4 at a concrete input: a one-row store with valid content
and the always-throwing provider. -/
theorem claim4_provider_error_witness :
    ProviderErrorBatchStep genErr 1 none 1 0
      { rows := [mkMsg 1 1 (some "a")], processed := 0, failed := 0,
        issued := 0 } :=
  claim4_provider_error genErr 1 none 1 0
    { rows := [mkMsg 1 1 (some "a")], processed := 0, failed := 0, issued := 0 }
    (by decide) (by decide) (by decide) rfl

/-! ### Claim C5 -/

/-- C5: in every fetched batch, the rows whose content is absent, empty, or
whitespace-only are exactly the ones filtered out before the provider call:
none of them reaches the valid sub-batch, the texts sent to the provider are
the trimmed contents of exactly the nonblank rows, the blank rows are counted
as the batch's skipped rows (`batch.length - validBatch.length`), and the
iteration still completes, advancing `processed` by the full batch length
instead of failing the run. -/
theorem claim5_blank_rows (gen : List String → Except Unit (List (List Rat)))
    (st : LoopState) (batch : List Message) :
    (∀ m ∈ batch, isBlankContent m.content = true → ¬ m ∈ validOf batch) ∧
    textsOf batch =
      (batch.filter (fun m => !(isBlankContent m.content))).map
        (fun m => jsTrim (m.content.getD "")) ∧
    batch.length - (validOf batch).length =
      (batch.filter (fun m => isBlankContent m.content)).length ∧
    (embedIter gen st batch).processed = st.processed + batch.length := by
  have hfilter : validOf batch =
      batch.filter (fun m => !(isBlankContent m.content)) := by
    unfold validOf
    exact List.filter_congr (fun m _ => by rw [isValidContent_eq_not_blank])
  refine ⟨?_, ?_, ?_, embedIter_processed gen st batch⟩
  · intro m _ hblank hmem
    have hv := List.of_mem_filter hmem
    rw [isValidContent_eq_not_blank, hblank] at hv
    simp at hv
  · rw [textsOf, hfilter]
  · rw [hfilter]
    have hsplit : batch.length =
        (batch.filter (fun m => isBlankContent m.content)).length +
          (batch.filter (fun m => !(isBlankContent m.content))).length := by
      simpa using @List.length_eq_length_filter_add Message batch
        (fun m => isBlankContent m.content)
    omega

/-! ### Claim C6 -/

/-- What `findSimilarMessages` returns: rows sorted by descending similarity;
every returned row comes from a stored row with a non-null embedding
satisfying every supplied (truthy) filter, carrying similarity
`1 - dist(embedding, query)`; and the result is the `offset`/`limit` page
(default limit 10) of the full ordered result. -/
def SimilaritySearchSpec (dist : List Rat → List Rat → Rat) (emb : List Rat)
    (o : SearchOptions) (rows : List Message) : Prop :=
  List.Pairwise (fun a b : SearchResult => b.similarity ≤ a.similarity)
    (findSimilarMessages dist emb o rows) ∧
  (∀ x ∈ findSimilarMessages dist emb o rows, ∃ m ∈ rows,
    m.embedding.isSome = true ∧
    (∀ c, o.chatId = some c → m.chatId = c) ∧
    (∀ t, o.type = some t → m.type = t) ∧
    (∀ a, o.startTime = some a → a < m.createdAt) ∧
    (∀ b, o.endTime = some b → m.createdAt < b) ∧
    x = toSearchResult dist emb m) ∧
  findSimilarMessages dist emb o rows =
    ((findSimilarMessages dist emb
        { o with limit := some rows.length, offset := some 0 } rows).drop
      (o.offset.getD 0)).take (o.limit.getD 10)

/-- C6: `findSimilarMessages` returns only rows with a non-null embedding
that satisfy every supplied filter, ordered by descending cosine similarity
`1 - dist(embedding, query)` and paginated by `limit`/`offset` with default
limit 10.  (A supplied chat id of 0 is falsy and adds no chat condition —
claim10 — hence the hypothesis.) -/
theorem claim6_similarity_search (dist : List Rat → List Rat → Rat)
    (emb : List Rat) (o : SearchOptions) (rows : List Message)
    (hchat : o.chatId ≠ some 0) :
    SimilaritySearchSpec dist emb o rows := by
  have htrans : ∀ a b c : SearchResult,
      decide (b.similarity ≤ a.similarity) = true →
      decide (c.similarity ≤ b.similarity) = true →
      decide (c.similarity ≤ a.similarity) = true :=
    fun a b c hab hbc =>
      decide_eq_true (le_trans (of_decide_eq_true hbc) (of_decide_eq_true hab))
  have htotal : ∀ a b : SearchResult,
      (decide (b.similarity ≤ a.similarity) ||
        decide (a.similarity ≤ b.similarity)) = true := by
    intro a b
    rcases le_total b.similarity a.similarity with h | h <;> simp [h]
  have hsorted := List.sorted_mergeSort htrans htotal
    ((rows.filter (matchesSearch o)).map (toSearchResult dist emb))
  refine ⟨?_, ?_, ?_⟩
  · show List.Pairwise _ ((((
      (rows.filter (matchesSearch o)).map (toSearchResult dist emb)).mergeSort
        (fun a b => decide (b.similarity ≤ a.similarity))).drop
      (o.offset.getD 0)).take (o.limit.getD 10))
    refine List.Pairwise.sublist ?_ (hsorted.imp (fun h => of_decide_eq_true h))
    exact (List.take_sublist _ _).trans (List.drop_sublist _ _)
  · intro x hx
    have hx1 : x ∈ ((rows.filter (matchesSearch o)).map
        (toSearchResult dist emb)).mergeSort
        (fun a b => decide (b.similarity ≤ a.similarity)) :=
      List.mem_of_mem_drop (List.mem_of_mem_take hx)
    have hx2 := List.mem_mergeSort.1 hx1
    obtain ⟨m, hm, hxm⟩ := List.mem_map.1 hx2
    have hmatch := List.of_mem_filter hm
    have hmem := List.mem_of_mem_filter hm
    unfold matchesSearch at hmatch
    simp only [Bool.and_eq_true] at hmatch
    obtain ⟨⟨⟨⟨hc, ht⟩, hs⟩, he⟩, hemb⟩ := hmatch
    refine ⟨m, hmem, hemb, ?_, ?_, ?_, ?_, hxm.symm⟩
    · intro c hco
      rw [hco] at hc
      have hc0 : c ≠ 0 := fun h0 => hchat (by rw [hco, h0])
      have hne : jsTruthyInt (some c) = true := by simp [jsTruthyInt, hc0]
      rw [if_pos hne] at hc
      exact eq_of_beq hc
    · intro t hto
      rw [hto] at ht
      simpa using ht
    · intro a hso
      rw [hso] at hs
      simpa using hs
    · intro b heo
      rw [heo] at he
      simpa using he
  · have hlen : (((rows.filter (matchesSearch o)).map
        (toSearchResult dist emb)).mergeSort
        (fun a b => decide (b.similarity ≤ a.similarity))).length ≤ rows.length := by
      rw [List.length_mergeSort, List.length_map]
      exact List.length_filter_le _ _
    have hmo : matchesSearch { o with limit := some rows.length, offset := some 0 } =
        matchesSearch o := by
      funext m
      simp [matchesSearch]
    have hinner : findSimilarMessages dist emb
        { o with limit := some rows.length, offset := some 0 } rows =
        ((rows.filter (matchesSearch o)).map (toSearchResult dist emb)).mergeSort
          (fun a b => decide (b.similarity ≤ a.similarity)) := by
      show ((((rows.filter (matchesSearch
          { o with limit := some rows.length, offset := some 0 })).map
          (toSearchResult dist emb)).mergeSort
          (fun a b => decide (b.similarity ≤ a.similarity))).drop 0).take
          rows.length = _
      rw [List.drop_zero, hmo]
      exact List.take_of_length_le hlen
    rw [hinner]
    rfl

/-- A degenerate distance function for the concrete witness. -/
def distZero : List Rat → List Rat → Rat := fun _ _ => 0

/-- A one-row store with an embedding set, for the C6 witness. -/
def rowsWithEmbedding : List Message :=
  [{ mkMsg 1 1 (some "a") with embedding := some [1] }]

/-- Witness for C6 at a concrete input: a truthy chat filter (chat 1). -/
theorem claim6_similarity_search_witness :
    SimilaritySearchSpec distZero [1]
      { chatId := some 1, type := none, startTime := none, endTime := none,
        limit := none, offset := none } rowsWithEmbedding :=
  claim6_similarity_search distZero [1]
    { chatId := some 1, type := none, startTime := none, endTime := none,
      limit := none, offset := none } rowsWithEmbedding (by decide)

/-! ### Claim C7 -/

/-- A store holding the message with id 1 in chat 1. -/
def storeC7 : List Message := [mkMsg 1 1 (some "x")]

/-- An insert input with every optional field laid out. -/
def newMsg (id chatId : Int) (content : Option String) : NewMessage :=
  { id := id, chatId := chatId, type := some MsgType.text, content := content,
    mediaInfo := none, createdAt := 0, fromId := none, replyToId := none,
    forwardFromChatId := none, forwardFromMessageId := none, views := none,
    forwards := none }

/-- C7 counterexample: the unique key is the (id, chatId) pair, so inserting
a message whose id (1) already exists in the store — but under another chat —
is not a no-op: a new row is inserted and returned. -/
theorem claim7_counterexample :
    (∃ r ∈ storeC7, r.id = 1) ∧
    (createMessage [newMsg 1 2 (some "y")] storeC7).1.length = 1 ∧
    (createMessage [newMsg 1 2 (some "y")] storeC7).2.length = 2 := by
  decide

/-- Inserting a message whose unique key already exists returns no row and
leaves the store (in particular the existing row) unchanged, raising no
error. -/
def DuplicateInsertNoOp (msg : NewMessage) (store : List Message) : Prop :=
  createMessage [msg] store = ([], store)

/-- C7 (amended): `createMessage` with a message whose (id, chatId) pair
already exists in the store is a no-op: `onConflictDoNothing` skips the row,
`returning` yields no new row, no error is raised and every existing row is
unchanged.  (With only the id matching, under another chat id, the insert
does go through: `claim7_counterexample`.) -/
theorem claim7_duplicate_insert (msg : NewMessage) (store : List Message)
    (h : ∃ r ∈ store, r.id = msg.id ∧ r.chatId = msg.chatId) :
    DuplicateInsertNoOp msg store := by
  unfold DuplicateInsertNoOp createMessage
  have hc : hasKeyConflict store (normalizeInsert msg) = true := by
    unfold hasKeyConflict
    rw [List.any_eq_true]
    obtain ⟨r, hr, h1, h2⟩ := h
    exact ⟨r, hr, by simp [normalizeInsert, h1, h2]⟩
  simp [hc]

/-- Witness for C7 at a concrete input: re-inserting the (1, 1) message. -/
theorem claim7_duplicate_insert_witness :
    DuplicateInsertNoOp (newMsg 1 1 (some "x")) storeC7 :=
  claim7_duplicate_insert (newMsg 1 1 (some "x")) storeC7 (by decide)

/-! ### Claim C8 -/

/-- The chat upsert contract: a missing id inserts the row and returns it; a
present id overwrites exactly the mutable fields (name, type, lastMessage,
lastMessageDate, lastSyncTime, messageCount, folderId) of the one row with
that id, keeps its id and every other row untouched, preserves the store's
length, and id-uniqueness is never violated (no duplicate-key error). -/
def ChatUpsertSpec (data : Chat) (store : List Chat) : Prop :=
  ((∀ r ∈ store, r.id ≠ data.id) →
    updateChat data store = ([data], store ++ [data])) ∧
  ((∃ r ∈ store, r.id = data.id) →
    (updateChat data store).2.length = store.length ∧
    (∀ (i : Nat) (r : Chat), store[i]? = some r →
      (r.id ≠ data.id → (updateChat data store).2[i]? = some r) ∧
      (r.id = data.id →
        (updateChat data store).2[i]? = some (chatOverwrite r data) ∧
        (chatOverwrite r data).id = r.id))) ∧
  ((store.map (fun r => r.id)).Nodup →
    ((updateChat data store).2.map (fun r => r.id)).Nodup)

/-- The folder upsert contract, like `ChatUpsertSpec` with the folder's
mutable fields (title, emoji, lastSyncTime). -/
def FolderUpsertSpec (data : Folder) (store : List Folder) : Prop :=
  ((∀ r ∈ store, r.id ≠ data.id) →
    updateFolder data store = ([data], store ++ [data])) ∧
  ((∃ r ∈ store, r.id = data.id) →
    (updateFolder data store).2.length = store.length ∧
    (∀ (i : Nat) (r : Folder), store[i]? = some r →
      (r.id ≠ data.id → (updateFolder data store).2[i]? = some r) ∧
      (r.id = data.id →
        (updateFolder data store).2[i]? = some (folderOverwrite r data) ∧
        (folderOverwrite r data).id = r.id))) ∧
  ((store.map (fun r => r.id)).Nodup →
    ((updateFolder data store).2.map (fun r => r.id)).Nodup)

theorem chatOverwrite_id (r data : Chat) : (chatOverwrite r data).id = r.id := rfl

theorem folderOverwrite_id (r data : Folder) :
    (folderOverwrite r data).id = r.id := rfl

theorem chat_upsert_spec (data : Chat) (store : List Chat) :
    ChatUpsertSpec data store := by
  refine ⟨?_, ?_, ?_⟩
  · intro h
    have hany : store.any (fun r => r.id == data.id) = false := by
      rw [List.any_eq_false]
      intro r hr
      simp [h r hr]
    unfold updateChat
    rw [hany]
    simp
  · intro h
    have hany : store.any (fun r => r.id == data.id) = true := by
      rw [List.any_eq_true]
      obtain ⟨r, hr, hid⟩ := h
      exact ⟨r, hr, by simp [hid]⟩
    unfold updateChat
    rw [hany]
    simp only [if_true]
    refine ⟨List.length_map _ _, ?_⟩
    intro i r hir
    have hmap : (store.map (fun r =>
        if r.id == data.id then chatOverwrite r data else r))[i]? =
        some (if r.id == data.id then chatOverwrite r data else r) := by
      rw [List.getElem?_map, hir]
      rfl
    constructor
    · intro hne
      rw [hmap]
      simp [hne]
    · intro heq
      refine ⟨?_, chatOverwrite_id r data⟩
      rw [hmap]
      simp [heq]
  · intro hnd
    unfold updateChat
    by_cases hany : store.any (fun r => r.id == data.id) = true
    · rw [hany]
      simp only [if_true]
      have hids : (store.map (fun r =>
          if r.id == data.id then chatOverwrite r data else r)).map
          (fun r => r.id) = store.map (fun r => r.id) := by
        rw [List.map_map]
        refine List.map_congr_left (fun r _ => ?_)
        show (if r.id == data.id then chatOverwrite r data else r).id = r.id
        by_cases h : r.id == data.id <;> simp [h, chatOverwrite_id]
      rw [hids]
      exact hnd
    · rw [Bool.not_eq_true] at hany
      rw [hany]
      simp only [Bool.false_eq_true, if_false]
      show ((store ++ [data]).map (fun r => r.id)).Nodup
      rw [List.map_append]
      refine List.Nodup.append hnd (by simp) ?_
      simp only [List.map_cons, List.map_nil, List.disjoint_singleton]
      rw [List.any_eq_false] at hany
      intro hmem
      obtain ⟨r, hr, hrid⟩ := List.mem_map.1 hmem
      exact hany r hr (by simp [hrid])

theorem folder_upsert_spec (data : Folder) (store : List Folder) :
    FolderUpsertSpec data store := by
  refine ⟨?_, ?_, ?_⟩
  · intro h
    have hany : store.any (fun r => r.id == data.id) = false := by
      rw [List.any_eq_false]
      intro r hr
      simp [h r hr]
    unfold updateFolder
    rw [hany]
    simp
  · intro h
    have hany : store.any (fun r => r.id == data.id) = true := by
      rw [List.any_eq_true]
      obtain ⟨r, hr, hid⟩ := h
      exact ⟨r, hr, by simp [hid]⟩
    unfold updateFolder
    rw [hany]
    simp only [if_true]
    refine ⟨List.length_map _ _, ?_⟩
    intro i r hir
    have hmap : (store.map (fun r =>
        if r.id == data.id then folderOverwrite r data else r))[i]? =
        some (if r.id == data.id then folderOverwrite r data else r) := by
      rw [List.getElem?_map, hir]
      rfl
    constructor
    · intro hne
      rw [hmap]
      simp [hne]
    · intro heq
      refine ⟨?_, folderOverwrite_id r data⟩
      rw [hmap]
      simp [heq]
  · intro hnd
    unfold updateFolder
    by_cases hany : store.any (fun r => r.id == data.id) = true
    · rw [hany]
      simp only [if_true]
      have hids : (store.map (fun r =>
          if r.id == data.id then folderOverwrite r data else r)).map
          (fun r => r.id) = store.map (fun r => r.id) := by
        rw [List.map_map]
        refine List.map_congr_left (fun r _ => ?_)
        show (if r.id == data.id then folderOverwrite r data else r).id = r.id
        by_cases h : r.id == data.id <;> simp [h, folderOverwrite_id]
      rw [hids]
      exact hnd
    · rw [Bool.not_eq_true] at hany
      rw [hany]
      simp only [Bool.false_eq_true, if_false]
      show ((store ++ [data]).map (fun r => r.id)).Nodup
      rw [List.map_append]
      refine List.Nodup.append hnd (by simp) ?_
      simp only [List.map_cons, List.map_nil, List.disjoint_singleton]
      rw [List.any_eq_false] at hany
      intro hmem
      obtain ⟨r, hr, hrid⟩ := List.mem_map.1 hmem
      exact hany r hr (by simp [hrid])

/-- C8: `updateChat` and `updateFolder` insert the row when no row with the
id exists, otherwise overwrite only the mutable fields of the one existing
row with that id (chats: name, type, lastMessage, lastMessageDate,
lastSyncTime, messageCount, folderId; folders: title, emoji, lastSyncTime),
leave its id and every other row unchanged, and never raise a duplicate-key
error (id-uniqueness of the store is preserved). -/
theorem claim8_upserts (dataC : Chat) (storeC : List Chat) (dataF : Folder)
    (storeF : List Folder) :
    ChatUpsertSpec dataC storeC ∧ FolderUpsertSpec dataF storeF :=
  ⟨chat_upsert_spec dataC storeC, folder_upsert_spec dataF storeF⟩

/-! ### Claim C9 -/

/-- C9: the per-row embedding writes of the backfill match rows by message id
alone.  Applying a write list to a store keeps its length; a row whose id
equals no written message id is untouched; a row whose id equals some written
message id — whatever its chatId — ends with its embedding set to one of the
written vectors and every other field unchanged.  The closing concrete store
shows one write for id 1 setting the embedding of the id-1 rows of both chat
1 and chat 2 while leaving the id-2 row alone. -/
theorem claim9_write_by_id (ps : List (Message × List Rat)) (rows : List Message) :
    (applyWrites ps rows).length = rows.length ∧
    (∀ (i : Nat) (r : Message), rows[i]? = some r →
      (r.id ∉ ps.map (fun p => p.1.id) → (applyWrites ps rows)[i]? = some r) ∧
      (r.id ∈ ps.map (fun p => p.1.id) →
        ∃ p ∈ ps, p.1.id = r.id ∧
          (applyWrites ps rows)[i]? =
            some { r with embedding := some p.2 })) ∧
    ((setEmbeddingById 1 [1] [mkMsg 1 1 (some "a"), mkMsg 1 2 (some "b"),
        mkMsg 2 2 (some "c")]).map (fun r => (r.chatId, r.embedding))) =
      [(1, some [1]), (2, some [1]), (2, none)] := by
  refine ⟨?_, ?_, by decide⟩
  · rw [applyWrites_eq_map, List.length_map]
  · intro i r hir
    have hmap : (applyWrites ps rows)[i]? = some (rowAfter ps r) := by
      rw [applyWrites_eq_map, List.getElem?_map, hir]
      rfl
    constructor
    · intro hnot
      rw [hmap, rowAfter_not_mem ps r hnot]
    · intro hmem
      obtain ⟨p, hp, hpid, hrow⟩ := rowAfter_mem ps r hmem
      exact ⟨p, hp, hpid, by rw [hmap, hrow]⟩

/-! ### Claim C10 -/

/-- C10: a supplied chat id of 0 is falsy, so both in `findSimilarMessages`
and in the backfill's chat-scope option it behaves exactly like an absent
filter: no chat condition is pushed, and the whole computation coincides
with the unfiltered one on every store. -/
theorem claim10_falsy_chat_filter :
    (∀ (dist : List Rat → List Rat → Rat) (emb : List Rat)
        (o : SearchOptions) (rows : List Message),
      findSimilarMessages dist emb { o with chatId := some 0 } rows =
        findSimilarMessages dist emb { o with chatId := none } rows) ∧
    (∀ (gen : List String → Except Unit (List (List Rat)))
        (bs : Option Nat) (rows : List Message),
      embed gen { batchSize := bs, chatId := some 0 } rows =
        embed gen { batchSize := bs, chatId := none } rows) := by
  have he : eligB (some 0) = eligB none := by
    funext r
    simp [eligB, jsTruthyInt]
  constructor
  · intro dist emb o rows
    have hm : matchesSearch { o with chatId := some 0 } =
        matchesSearch { o with chatId := none } := by
      funext m
      simp [matchesSearch, jsTruthyInt]
    unfold findSimilarMessages
    rw [hm]
  · intro gen bs rows
    have hloop : ∀ fuel count B st,
        embedLoop gen B (some 0) count fuel st =
          embedLoop gen B none count fuel st := by
      intro fuel
      induction fuel with
      | zero => intro count B st; rfl
      | succ fuel ih =>
          intro count B st
          rw [embedLoop, embedLoop]
          have hf : fetchBatch (some 0) B st.rows = fetchBatch none B st.rows := by
            unfold fetchBatch
            rw [he]
          by_cases hg : st.processed < count
          · simp only [hg, if_pos, hf]
            by_cases hb : (fetchBatch none B st.rows).length = 0
            · simp [hb]
            · simp only [hb, if_neg, if_false, ih]
          · simp [hg]
    have hc : countEligible (some 0) rows = countEligible none rows := by
      unfold countEligible
      rw [he]
    have hbs : effectiveBatchSize { batchSize := bs, chatId := some 0 } =
        effectiveBatchSize { batchSize := bs, chatId := none } := rfl
    unfold embed
    simp only [hc, hloop, hbs]
